import Mathlib

/-!
Verification of `lib/generate-nginx-configs.py` (multi-tenant-platform).

The Python generator is shallowly embedded below.  Rendered nginx
configuration text is represented as a `List String` of its lines; the
Python file content is exactly the concatenation of every line followed by
a newline (`textOfLines`).  Python dictionaries whose iteration order
matters (the project registry, the `containers` mapping) are association
lists.  Python operations that can raise (`domains[0]` on an empty list,
missing mandatory keys) are embedded with `Option`: a `none` result models
the uncaught exception aborting the run.  The single shared mutable
`is_first_server_block` flag is threaded explicitly as a `Bool`.
-/

namespace NginxGen

/-- Boolean test that the list `m` is a prefix of `s` (character lists). -/
def prefixAt : List Char → List Char → Bool
  | [], _ => true
  | _ :: _, [] => false
  | a :: m, b :: s => a == b && prefixAt m s

/-- Boolean substring test on character lists, `m` occurs somewhere in `s`.
Models the Python `in` operator on strings. -/
def hasSubAux (m : List Char) : List Char → Bool
  | [] => prefixAt m []
  | c :: rest => prefixAt m (c :: rest) || hasSubAux m rest

/-- Python `m in s` for strings. -/
def hasSub (m s : String) : Bool := hasSubAux m.data s.data

/-- Python `s.lower()` (ASCII, which is all the generator relies on). -/
def lowerStr (s : String) : String := ⟨s.data.map Char.toLower⟩

/-- Python `s.upper()` (ASCII). -/
def upperStr (s : String) : String := ⟨s.data.map Char.toUpper⟩

/-- Python `sep.join(xs)`. -/
def joinSep (sep : String) : List String → String
  | [] => ""
  | [x] => x
  | x :: y :: rest => x ++ (sep ++ joinSep sep (y :: rest))

/-- Python `s.replace("www.", "")` on the character list: every occurrence
of `www.` is removed, scanning left to right. -/
def stripWwwChars : List Char → List Char
  | [] => []
  | 'w' :: 'w' :: 'w' :: '.' :: rest => stripWwwChars rest
  | c :: rest => c :: stripWwwChars rest

/-- Python `s.replace("www.", "")`. -/
def stripWwwStr (s : String) : String := ⟨stripWwwChars s.data⟩

/-- Python `s.split("\\n")` — NB the separator in the source is the literal
two-character sequence backslash `n`, not a newline. -/
def splitBNAux (acc : List Char) : List Char → List (List Char)
  | [] => [acc.reverse]
  | '\\' :: 'n' :: rest => acc.reverse :: splitBNAux [] rest
  | c :: rest => splitBNAux (c :: acc) rest

/-- Python `s.split("\\n")` as a list of strings. -/
def splitBN (s : String) : List String := (splitBNAux [] s.data).map (fun cs => ⟨cs⟩)

/-- Characters of a line list: each line followed by a newline. -/
def joinLinesChars : List String → List Char
  | [] => []
  | l :: rest => l.data ++ ('\n' :: joinLinesChars rest)

/-- The file text corresponding to a list of lines: each line followed by a
newline, concatenated. -/
def textOfLines (lines : List String) : String := ⟨joinLinesChars lines⟩

/-- Boolean test that `s` ends with `.conf` (the validator's glob). -/
def isConfName (s : String) : Bool := prefixAt ".conf".data.reverse s.data.reverse

/-- Last element of the list satisfying the predicate, if any. -/
def lastMatch {α : Type} (p : α → Bool) : List α → Option α
  | [] => none
  | x :: rest =>
    match lastMatch p rest with
    | some r => some r
    | none => if p x then some x else none

/-! ### The data model of `projects.yml` -/

/-- One entry of the `containers` mapping: `{name, port}`. -/
structure Container where
  name : String
  port : Nat
  deriving DecidableEq

/-- The `nginx.rate_limit` mapping; both keys optional. -/
structure RateLimit where
  zone : Option String
  burst : Option Nat
  deriving DecidableEq

/-- The optional `nginx` mapping of a project. -/
structure NginxOptions where
  api_locations : Option (List String)
  rate_limit : Option RateLimit
  proxy_connect_timeout : Option String
  proxy_timeout : Option String
  deriving DecidableEq

/-- A YAML domains entry: either a single string or a list of strings. -/
inductive Domains where
  | single (d : String)
  | list (ds : List String)
  deriving DecidableEq

/-- The `domains.staging` mapping, holding a `domains` entry. -/
structure StagingDomains where
  domains : Domains
  deriving DecidableEq

/-- The `domains` mapping of a project; each environment key optional. -/
structure ProjectDomains where
  production : Option Domains
  staging : Option StagingDomains
  deriving DecidableEq

/-- A project definition.  `name` is the display name `project["name"]`;
`containers` keeps the dict iteration order as an association list. -/
structure Project where
  name : String
  domains : ProjectDomains
  containers : List (String × Container)
  nginx : Option NginxOptions
  deriving DecidableEq

/-- `domains[0] if isinstance(domains, list) else domains`; `none` models
the `IndexError` on an empty list. -/
def Domains.primary? : Domains → Option String
  | .single d => some d
  | .list ds => ds.head?

/-- `" ".join(domains) if isinstance(domains, list) else domains`. -/
def Domains.serverNames : Domains → String
  | .single d => d
  | .list ds => joinSep " " ds

/-- The domains entry consulted by `generate_server_block` for an
environment (`none` models the `KeyError` when the key is absent). -/
def domainsFor (p : Project) (env : String) : Option Domains :=
  if env = "production" then p.domains.production
  else p.domains.staging.map StagingDomains.domains

/-- `project.get("nginx", {})`. -/
def nginxOf (p : Project) : NginxOptions :=
  p.nginx.getD ⟨none, none, none, none⟩

/-- `nginx_config.get("rate_limit", {})`. -/
def rateLimitOf (p : Project) : RateLimit :=
  (nginxOf p).rate_limit.getD ⟨none, none⟩

/-! ### Container classification (the loop at lines 69–83) -/

/-- `"backend" in container_key.lower()`. -/
def keyIsBackend (key : String) : Bool := hasSub "backend" (lowerStr key)

/-- `"frontend" in key.lower() or "web" in key.lower()`, reached only when
the backend test failed (`elif`). -/
def keyIsFrontendBranch (key : String) : Bool :=
  !keyIsBackend key && (hasSub "frontend" (lowerStr key) || hasSub "web" (lowerStr key))

/-- The container name, suffixed with `-staging` in the staging environment. -/
def envContainerName (env : String) (c : Container) : String :=
  if env = "staging" then c.name ++ "-staging" else c.name

/-- One iteration of the classification loop. -/
def classifyStep (env : String)
    (acc : Option (String × Nat) × Option (String × Nat)) (kc : String × Container) :
    Option (String × Nat) × Option (String × Nat) :=
  if keyIsBackend kc.1 then (some (envContainerName env kc.2, kc.2.port), acc.2)
  else if hasSub "frontend" (lowerStr kc.1) || hasSub "web" (lowerStr kc.1) then
    (acc.1, some (envContainerName env kc.2, kc.2.port))
  else acc

/-- The classification loop over the `containers` mapping: the recognized
`(backend_container, frontend_container)` pair. -/
def classifyContainers (env : String) (l : List (String × Container)) :
    Option (String × Nat) × Option (String × Nat) :=
  l.foldl (classifyStep env) (none, none)

/-! ### Server block text (lines 90–198) -/

/-- The exclusive listener directive handed out to the first HTTPS block. -/
def reuseportListener : String :=
  "listen 443 quic reuseport;  # HTTP/3 support (reuseport only on first block)"

/-- The non-exclusive QUIC listener directive of every later HTTPS block. -/
def plainQuicListener : String := "listen 443 quic;  # HTTP/3 support"

/-- The full rendered line holding the exclusive listener directive. -/
def reuseportLine : String := "    " ++ reuseportListener

/-- The full rendered line holding the non-exclusive listener directive. -/
def plainQuicLine : String := "    " ++ plainQuicListener

/-- A row of `k` equals signs, as used by the template comment rules. -/
def eqRow (k : Nat) : String := ⟨List.replicate k '='⟩

/-- A full-width header rule line. -/
def hashRule : String := "# " ++ eqRow 77

/-- An indented section rule line. -/
def sectionRule : String := "    # " ++ eqRow 74

/-- Lines 98–117: the fixed head of every HTTPS server block. -/
def headerLines (projectName displayName env quic serverNames primaryDomain : String) :
    List String :=
  [ hashRule,
    "# " ++ (displayName ++ (" - " ++ upperStr env)),
    hashRule,
    "server \x7b",
    "    listen 443 ssl;",
    "    " ++ quic,
    "    http2 on;",
    "    server_name " ++ (serverNames ++ ";"),
    "",
    "    # SSL certificates",
    "    ssl_certificate /etc/letsencrypt/live/" ++ (primaryDomain ++ "/fullchain.pem;"),
    "    ssl_certificate_key /etc/letsencrypt/live/" ++ (primaryDomain ++ "/privkey.pem;"),
    "",
    "    # Include security headers",
    "    include /etc/nginx/includes/security-headers.conf;",
    "",
    "    # Logs",
    "    access_log /var/log/nginx/" ++ (projectName ++ ("-" ++ (env ++ ".access.log detailed;"))),
    "    error_log /var/log/nginx/" ++ (projectName ++ ("-" ++ (env ++ ".error.log warn;"))) ]

/-- Lines 124–145: the API routing section. -/
def backendRoutesLines (apiPattern : String) (burst : Nat) (bname : String) (bport : Nat)
    (connectTimeout sendTimeout readTimeout : String) : List String :=
  [ "",
    sectionRule,
    "    # BACKEND ROUTES (API)",
    sectionRule,
    "    location ~ ^/(" ++ (apiPattern ++ ") \x7b"),
    "        # Rate limiting for API",
    "        limit_req zone=api burst=" ++ (toString burst ++ " nodelay;"),
    "",
    "        # Dynamic backend resolution",
    "        set $backend_host \"" ++ (bname ++ "\";"),
    "        set $backend_port \"" ++ (toString bport ++ "\";"),
    "        proxy_pass http://$backend_host:$backend_port;",
    "",
    "        # Include standard proxy headers",
    "        include /etc/nginx/includes/proxy-headers.conf;",
    "",
    "        # API-specific timeouts",
    "        proxy_connect_timeout " ++ (connectTimeout ++ ";"),
    "        proxy_send_timeout " ++ (sendTimeout ++ ";"),
    "        proxy_read_timeout " ++ (readTimeout ++ ";"),
    "    \x7d" ]

/-- Lines 152–194: the frontend routing / SPA fallback / static asset section. -/
def frontendRoutesLines (rateZone : String) (burst : Nat) (fname : String) (fport : Nat) :
    List String :=
  [ "",
    sectionRule,
    "    # FRONTEND ROUTES",
    sectionRule,
    "    location / \x7b",
    "        # Rate limiting",
    "        limit_req zone=" ++ (rateZone ++ (" burst=" ++ (toString burst ++ " nodelay;"))),
    "",
    "        # Dynamic frontend resolution",
    "        set $frontend_host \"" ++ (fname ++ "\";"),
    "        set $frontend_port \"" ++ (toString fport ++ "\";"),
    "        proxy_pass http://$frontend_host:$frontend_port;",
    "",
    "        # Include standard proxy headers",
    "        include /etc/nginx/includes/proxy-headers.conf;",
    "",
    "        # SPA fallback",
    "        proxy_intercept_errors on;",
    "        error_page 404 = @frontend_fallback;",
    "    \x7d",
    "",
    "    # SPA fallback - serve index.html for client-side routes",
    "    location @frontend_fallback \x7b",
    "        set $frontend_host \"" ++ (fname ++ "\";"),
    "        set $frontend_port \"" ++ (toString fport ++ "\";"),
    "        proxy_pass http://$frontend_host:$frontend_port/index.html;",
    "        include /etc/nginx/includes/proxy-headers.conf;",
    "    \x7d",
    "",
    sectionRule,
    "    # STATIC ASSETS (with caching)",
    sectionRule,
    "    location ~* \\.(js|css|png|jpg|jpeg|gif|ico|svg|woff|woff2|ttf|eot)$ \x7b",
    "        set $frontend_host \"" ++ (fname ++ "\";"),
    "        set $frontend_port \"" ++ (toString fport ++ "\";"),
    "        proxy_pass http://$frontend_host:$frontend_port;",
    "        include /etc/nginx/includes/proxy-headers.conf;",
    "",
    "        # Cache static assets",
    "        proxy_cache_valid 200 7d;",
    "        add_header Cache-Control \"public, max-age=604800, immutable\";",
    "    \x7d" ]

/-- `generate_server_block` (lines 47–198): the rendered HTTPS block lines
paired with the updated first-block flag.  A `none` first component models
the uncaught `KeyError`/`IndexError` (flag untouched in that case, since the
flag is only assigned at line 95 after the domain lookups succeeded). -/
def generateServerBlock (projectName : String) (p : Project) (env : String)
    (isFirst : Bool) : Option (List String) × Bool :=
  match domainsFor p env with
  | none => (none, isFirst)
  | some domains =>
    match domains.primary? with
    | none => (none, isFirst)
    | some primaryDomain =>
      let serverNames := domains.serverNames
      let bf := classifyContainers env p.containers
      let nginxConfig := nginxOf p
      let apiLocations := nginxConfig.api_locations.getD []
      let rateLimit := rateLimitOf p
      let quicListener := if isFirst then reuseportListener else plainQuicListener
      let isFirst' := if isFirst then false else isFirst
      let base := headerLines projectName p.name env quicListener serverNames primaryDomain
      let backendSection :=
        match bf.1, apiLocations with
        | some bc, a :: rest =>
          backendRoutesLines (joinSep "|" (a :: rest)) (rateLimit.burst.getD 20)
            bc.1 bc.2 (nginxConfig.proxy_connect_timeout.getD "60s")
            (nginxConfig.proxy_timeout.getD "60s") (nginxConfig.proxy_timeout.getD "60s")
        | _, _ => []
      let frontendSection :=
        match bf.2 with
        | some fc =>
          frontendRoutesLines (rateLimit.zone.getD "general")
            (if bf.1.isSome then 50 else rateLimit.burst.getD 50) fc.1 fc.2
        | none => []
      (some (base ++ (backendSection ++ (frontendSection ++ ["\x7d"]))), isFirst')

/-- `generate_http_redirect` (lines 200–222). -/
def redirectLines (doms : Domains) : List String :=
  [ hashRule,
    "# HTTP ‚Üí HTTPS REDIRECT",
    hashRule,
    "server \x7b",
    "    listen 80;",
    "    server_name " ++ (doms.serverNames ++ ";"),
    "",
    "    # ACME challenge for SSL renewal",
    "    location /.well-known/acme-challenge/ \x7b",
    "        root /var/www/certbot;",
    "    \x7d",
    "",
    "    # Redirect all other traffic to HTTPS",
    "    location / \x7b",
    "        return 301 https://$host$request_uri;",
    "    \x7d",
    "\x7d",
    "" ]

/-- Lines 226–233: the per-project file header comment. -/
def projectHeaderLines (displayName : String) : List String :=
  [ hashRule,
    "# " ++ (displayName ++ " - Nginx Configuration"),
    hashRule,
    "# AUTO-GENERATED from config/projects.yml",
    "# DO NOT EDIT MANUALLY - Use ./lib/generate-nginx-configs.py to regenerate",
    hashRule,
    "" ]

/-- One environment inside `generate_project_config`: redirect block followed
by the HTTPS server block.  Also returns the HTTPS block on its own, so that
run-level statements can speak about the rendered HTTPS blocks. -/
def envPart (projectName : String) (p : Project) (env : String) (doms : Domains)
    (isFirst : Bool) : Option (List String × List String) × Bool :=
  match generateServerBlock projectName p env isFirst with
  | (none, b') => (none, b')
  | (some blockLines, b') => (some (redirectLines doms ++ blockLines, blockLines), b')

/-- `generate_project_config` (lines 224–251).  The first component of a
successful result is `(file lines, rendered HTTPS blocks in order)`. -/
def generateProjectConfig (projectName : String) (p : Project) (isFirst : Bool) :
    Option (List String × List (List String)) × Bool :=
  let header := projectHeaderLines p.name
  match p.domains.production with
  | some prodDomains =>
    (match envPart projectName p "production" prodDomains isFirst with
     | (none, b') => (none, b')
     | (some pr, b') =>
       match p.domains.staging with
       | none => (some (header ++ (pr.1 ++ [""]), [pr.2]), b')
       | some st =>
         match envPart projectName p "staging" st.domains b' with
         | (none, b'') => (none, b'')
         | (some stp, b'') =>
           (some (header ++ (pr.1 ++ ([""] ++ stp.1)), [pr.2, stp.2]), b''))
  | none =>
    match p.domains.staging with
    | none => (some (header, []), isFirst)
    | some st =>
      match envPart projectName p "staging" st.domains isFirst with
      | (none, b') => (none, b')
      | (some stp, b') => (some (header ++ stp.1, [stp.2]), b')

/-- Lines 336–341: the output file name; `none` models the `IndexError` on
an empty production domain list. -/
def outputFileName (projectName : String) (p : Project) : Option String :=
  match p.domains.production with
  | some prodDomains => prodDomains.primary?.map (fun pd => stripWwwStr pd ++ ".conf")
  | none => some (projectName ++ ".conf")

/-- Lines 345–347: the elements printed by the dry-run preview,
`config.split("\\n")[:10]`. -/
def previewLines (cfg : List String) : List String :=
  (splitBN (textOfLines cfg)).take 10

/-! ### Output directory model -/

/-- The output directory: file name to file lines.  Names are unique. -/
abbrev Dir := List (String × List String)

/-- Writing a file: overwrite the entry if present, else append it. -/
def fsWrite (name : String) (content : List String) : Dir → Dir
  | [] => [(name, content)]
  | f :: rest => if f.1 = name then (name, content) :: rest else f :: fsWrite name content rest

/-- Reading a file, if present. -/
def fsRead : Dir → String → Option (List String)
  | [], _ => none
  | f :: rest, name => if f.1 = name then some f.2 else fsRead rest name

/-- Applying a list of writes in order. -/
def applyWrites (ws : List (String × List String)) (d : Dir) : Dir :=
  ws.foldl (fun acc w => fsWrite w.1 w.2 acc) d

/-- The last write to `name` in a write list, if any. -/
def lastWrite : List (String × List String) → String → Option (List String)
  | [], _ => none
  | w :: rest, name =>
    match lastWrite rest name with
    | some r => some r
    | none => if w.1 = name then some w.2 else none

/-! ### Post-generation validation (lines 253–306) -/

/-- The exact exclusive-listener marker text searched for by check 1. -/
def reuseportMarker : String := "listen 443 quic reuseport"

/-- The non-exclusive QUIC listener marker text searched for by check 2. -/
def quicMarker : String := "listen 443 quic"

/-- The files scanned by the validator: `output_dir.glob("*.conf")`.  (The
source also sorts them by name, which only affects message order, never the
verdict.) -/
def confFiles (d : Dir) : Dir := d.filter (fun f => isConfName f.1)

/-- Check 1's count: the number of lines across all `.conf` files that
contain the exclusive-listener marker text. -/
def countReuseportLines (d : Dir) : Nat :=
  ((confFiles d).map (fun f => f.2.countP (fun line => hasSub reuseportMarker line))).sum

/-- Check 2's per-file test: `"listen 443 quic" in content`.  The marker has
no newline, so the substring occurs in the file text iff some line contains
it. -/
def fileHasQuic (lines : List String) : Bool := lines.any (fun line => hasSub quicMarker line)

/-- `validate_generated_configs` (lines 253–306): `all_passed`. -/
def validateGeneratedConfigs (d : Dir) : Bool :=
  (countReuseportLines d == 1) &&
    ((confFiles d).filter (fun f => !fileHasQuic f.2)).isEmpty

/-! ### The per-run driver (`generate_all`, lines 308–377) -/

/-- Result of the per-project loop (lines 329–357).  `blocks` records the
HTTPS blocks rendered (in order); `previews` the dry-run preview print-outs;
`crashed` an uncaught exception, which stops the loop with the directory as
written so far. -/
structure LoopResult where
  dir : Dir
  blocks : List (List String)
  previews : List (List String)
  flagOut : Bool
  crashed : Bool
  deriving DecidableEq

/-- The loop over the selected projects.  Per project: render the config,
derive the output file name, then either record a preview (dry run) or write
the file. -/
def runLoop (dryRun : Bool) : List (String × Project) → Dir → Bool → LoopResult
  | [], d, b => ⟨d, [], [], b, false⟩
  | (n, p) :: rest, d, b =>
    match generateProjectConfig n p b with
    | (none, b') => ⟨d, [], [], b', true⟩
    | (some cb, b') =>
      match outputFileName n p with
      | none => ⟨d, [], [], b', true⟩
      | some fname =>
        if dryRun then
          let res := runLoop dryRun rest d b'
          ⟨res.dir, cb.2 ++ res.blocks, previewLines cb.1 :: res.previews, res.flagOut, res.crashed⟩
        else
          let res := runLoop dryRun rest (fsWrite fname cb.1 d) b'
          ⟨res.dir, cb.2 ++ res.blocks, res.previews, res.flagOut, res.crashed⟩

/-- The writes a run performs (file name and content per project, up to the
first crash): a function of the registry slice and the incoming flag only. -/
def writesOf : List (String × Project) → Bool → List (String × List String)
  | [], _ => []
  | (n, p) :: rest, b =>
    match generateProjectConfig n p b with
    | (none, _) => []
    | (some cb, b') =>
      match outputFileName n p with
      | none => []
      | some fname => (fname, cb.1) :: writesOf rest b'

/-- Result of a whole `generate_all` invocation. -/
structure RunResult where
  dir : Dir
  blocks : List (List String)
  previews : List (List String)
  crashed : Bool
  ranValidation : Bool
  exitCode : Nat
  deriving DecidableEq

/-- `generate_all` (lines 308–377): select the projects (exiting with code 1
when a requested project is unknown), run the loop from a fresh
`is_first_server_block = true`, and, unless this was a dry run, validate the
output directory, exiting with code 1 on validation failure.  A crash
(uncaught exception) also ends the process with a non-zero code, before
validation. -/
def runAll (reg : List (String × Project)) (dryRun : Bool) (specific : Option String)
    (d : Dir) : RunResult :=
  let selected : Option (List (String × Project)) :=
    match specific with
    | none => some reg
    | some s =>
      match reg.find? (fun np => np.1 == s) with
      | some np => some [np]
      | none => none
  match selected with
  | none => ⟨d, [], [], false, false, 1⟩
  | some ps =>
    let res := runLoop dryRun ps d true
    if res.crashed then ⟨res.dir, res.blocks, res.previews, true, false, 1⟩
    else if dryRun then ⟨res.dir, res.blocks, res.previews, false, false, 0⟩
    else
      ⟨res.dir, res.blocks, res.previews, false, true,
        if validateGeneratedConfigs res.dir then 0 else 1⟩

/-! ### Preconditions and concrete fixtures -/

/-- Every domain list of the project that exists is non-empty (the
precondition under which primary-domain selection is total). -/
def goodDomains (p : Project) : Prop :=
  (∀ ds, p.domains.production = some (Domains.list ds) → ds ≠ []) ∧
  (∀ st ds, p.domains.staging = some st → st.domains = Domains.list ds → ds ≠ [])

/-- A representative full-featured project (production and staging, backend
and frontend containers, api locations, a configured burst). -/
def demoProject : Project :=
  { name := "Filter iCal"
    domains := { production := some (.list ["www.example.com", "example.com"])
                 staging := some { domains := .list ["staging.example.com"] } }
    containers := [("api-backend", ⟨"filter-api", 8000⟩), ("web-frontend", ⟨"filter-web", 3000⟩)]
    nginx := some { api_locations := some ["api", "docs"]
                    rate_limit := some { zone := some "general", burst := some 30 }
                    proxy_connect_timeout := none
                    proxy_timeout := some "120s" } }

/-- A second, frontend-only project used to exercise multi-project runs. -/
def demoProject2 : Project :=
  { name := "Blog"
    domains := { production := some (.list ["blog.example.org"]), staging := none }
    containers := [("web", ⟨"blog-web", 3100⟩)]
    nginx := none }

/-- A project whose production primary domain has an interior `www.`. -/
def wwwProject : Project :=
  { name := "Api Site"
    domains := { production := some (.list ["api.www.example.com"]), staging := none }
    containers := [("web", ⟨"api-web", 3200⟩)]
    nginx := none }

/-- A project with a recognized backend container but an empty
`api_locations` list, plus a configured burst of 10. -/
def emptyApiProject : Project :=
  { name := "Empty Api"
    domains := { production := some (.list ["empty.example.com"]), staging := none }
    containers := [("api-backend", ⟨"e-api", 8100⟩), ("web-frontend", ⟨"e-web", 3300⟩)]
    nginx := some { api_locations := some []
                    rate_limit := some { zone := none, burst := some 10 }
                    proxy_connect_timeout := none
                    proxy_timeout := none } }

/-- A project whose production domain list is empty. -/
def emptyDomainsProject : Project :=
  { name := "Broken"
    domains := { production := some (.list []), staging := none }
    containers := [("web", ⟨"b-web", 3400⟩)]
    nginx := none }

/-- The lines of the full config rendered for `demoProject` from a fresh
first-block flag. -/
def demoConfigLines : List String :=
  match generateProjectConfig "filter-ical" demoProject true with
  | (some cb, _) => cb.1
  | (none, _) => []

/-- A project with staging only (no production domains). -/
def stagingOnlyProject : Project :=
  { name := "Stage Only"
    domains := { production := none
                 staging := some { domains := .list ["st.example.net"] } }
    containers := [("web", ⟨"st-web", 3500⟩)]
    nginx := none }

/-- A project whose key differs from its primary domain. -/
def c3Project : Project :=
  { name := "My Proj"
    domains := { production := some (.list ["example.com"]), staging := none }
    containers := [("web", ⟨"w-web", 3600⟩)]
    nginx := none }

/-- The HTTPS block rendered for `c3Project` in production. -/
def c3BlockLines : List String :=
  match generateServerBlock "myproj" c3Project "production" true with
  | (some l, _) => l
  | (none, _) => []

/-- The HTTPS block rendered for `emptyApiProject` in production. -/
def emptyApiBlockLines : List String :=
  match generateServerBlock "empty-api" emptyApiProject "production" true with
  | (some l, _) => l
  | (none, _) => []

/-- A minimal project: one production domain given as a single string, no
recognized containers. -/
def tinyProject : Project :=
  { name := "Tiny"
    domains := { production := some (.single "tiny.example.io"), staging := none }
    containers := []
    nginx := none }

/-- The lines of the config rendered for `tinyProject` from a fresh flag. -/
def tinyConfigLines : List String :=
  match generateProjectConfig "tiny" tinyProject true with
  | (some cb, _) => cb.1
  | (none, _) => []

/-- The production HTTPS block rendered for `demoProject` from a fresh flag. -/
def demoProdBlockLines : List String :=
  match generateServerBlock "filter-ical" demoProject "production" true with
  | (some l, _) => l
  | (none, _) => []

/-- A two-project registry used to exercise a full multi-project run. -/
def c1Reg : List (String × Project) :=
  [("blog", demoProject2), ("empty-api", emptyApiProject)]

/-- The HTTPS blocks rendered by a full run over `c1Reg`. -/
def c1Blocks : List (List String) := (runAll c1Reg false none []).blocks

/-! ## Lemmas -/

theorem data_append (s t : String) : (s ++ t).data = s.data ++ t.data := by
  cases s; cases t; rfl

theorem prefixAt_append_self (l r : List Char) : prefixAt l (l ++ r) = true := by
  induction l with
  | nil => rfl
  | cons a m ih => simp [prefixAt, ih]

/-- If `s` is not a prefix of `t`, then no extension of `s` equals `t`. -/
theorem append_left_ne (s x t : String) (hs : prefixAt s.data t.data = false) :
    s ++ x ≠ t := by
  intro he
  have h2 : prefixAt s.data t.data = true := by
    rw [← he, data_append]; exact prefixAt_append_self _ _
  rw [hs] at h2
  cases h2

theorem reuseportLine_notin_header (pn dn env sn pd : String) :
    reuseportLine ∉ headerLines pn dn env plainQuicListener sn pd := by
  intro hmem
  simp only [headerLines, List.mem_cons, List.not_mem_nil, or_false] at hmem
  rcases hmem with h|h|h|h|h|h|h|h|h|h|h|h|h|h|h|h|h|h|h
  all_goals first
    | exact absurd h (by decide)
    | exact append_left_ne _ _ _ (by decide) h.symm

theorem reuseportLine_notin_backend (a bn : String) (bu bp : Nat) (ct st rt : String) :
    reuseportLine ∉ backendRoutesLines a bu bn bp ct st rt := by
  intro hmem
  simp only [backendRoutesLines, List.mem_cons, List.not_mem_nil, or_false] at hmem
  rcases hmem with h|h|h|h|h|h|h|h|h|h|h|h|h|h|h|h|h|h|h|h|h
  all_goals first
    | exact absurd h (by decide)
    | exact append_left_ne _ _ _ (by decide) h.symm

theorem reuseportLine_notin_frontend (z : String) (bu : Nat) (fn : String) (fp : Nat) :
    reuseportLine ∉ frontendRoutesLines z bu fn fp := by
  intro hmem
  simp only [frontendRoutesLines, List.mem_cons, List.not_mem_nil, or_false] at hmem
  rcases hmem with
    h|h|h|h|h|h|h|h|h|h|h|h|h|h|h|h|h|h|h|h|h|h|h|h|h|h|h|h|h|h|h|h|h|h|h|h|h|h|h|h|h|h
  all_goals first
    | exact absurd h (by decide)
    | exact append_left_ne _ _ _ (by decide) h.symm

theorem plainQuicLine_mem_header (pn dn env sn pd : String) :
    plainQuicLine ∈ headerLines pn dn env plainQuicListener sn pd := by
  simp [headerLines, plainQuicLine, List.mem_cons]

theorem reuseportLine_mem_header (pn dn env sn pd : String) :
    reuseportLine ∈ headerLines pn dn env reuseportListener sn pd := by
  simp [headerLines, reuseportLine, List.mem_cons]

/-- Structure of every successfully rendered HTTPS block: the header with
the listener chosen by the incoming flag, then optional backend and frontend
sections, then the closing brace; the flag is lowered exactly when it was
set. -/
theorem gsb_some_shape (n : String) (p : Project) (env : String) (b : Bool)
    (lines : List String) (b' : Bool)
    (h : generateServerBlock n p env b = (some lines, b')) :
    b' = (if b then false else b) ∧
    ∃ sn pd bsec fsec,
      lines = headerLines n p.name env (if b then reuseportListener else plainQuicListener)
          sn pd ++ (bsec ++ (fsec ++ ["\x7d"])) ∧
      (bsec = [] ∨ ∃ a bu bn bp ct st rt, bsec = backendRoutesLines a bu bn bp ct st rt) ∧
      (fsec = [] ∨ ∃ z bu fn fp, fsec = frontendRoutesLines z bu fn fp) := by
  unfold generateServerBlock at h
  split at h
  · exact absurd h (by simp)
  · split at h
    · exact absurd h (by simp)
    · simp only [Prod.mk.injEq, Option.some.injEq] at h
      obtain ⟨hl, hb⟩ := h
      refine ⟨hb.symm, _, _, _, _, hl.symm, ?_, ?_⟩
      · split
        · exact Or.inr ⟨_, _, _, _, _, _, _, rfl⟩
        · exact Or.inl rfl
      · split
        · exact Or.inr ⟨_, _, _, _, rfl⟩
        · exact Or.inl rfl

/-- A block rendered with the flag lowered: it carries the plain QUIC
listener line, not the exclusive one, and leaves the flag lowered. -/
theorem gsb_false_mem (n : String) (p : Project) (env : String)
    (lines : List String) (b' : Bool)
    (h : generateServerBlock n p env false = (some lines, b')) :
    plainQuicLine ∈ lines ∧ reuseportLine ∉ lines ∧ b' = false := by
  obtain ⟨hb, sn, pd, bsec, fsec, hl, hbs, hfs⟩ := gsb_some_shape n p env false lines b' h
  simp only [Bool.false_eq_true, reduceIte] at hb hl
  subst hl
  refine ⟨List.mem_append_left _ (plainQuicLine_mem_header _ _ _ _ _), ?_, hb⟩
  intro hm
  rcases List.mem_append.mp hm with hh | hrest
  · exact reuseportLine_notin_header _ _ _ _ _ hh
  rcases List.mem_append.mp hrest with hbsec | hrest2
  · rcases hbs with rfl | ⟨a, bu, bn, bp, ct, st, rt, rfl⟩
    · exact List.not_mem_nil _ hbsec
    · exact reuseportLine_notin_backend _ _ _ _ _ _ _ hbsec
  rcases List.mem_append.mp hrest2 with hfsec | hclose
  · rcases hfs with rfl | ⟨z, bu, fn, fp, rfl⟩
    · exact List.not_mem_nil _ hfsec
    · exact reuseportLine_notin_frontend _ _ _ _ hfsec
  · simp only [List.mem_singleton] at hclose
    exact absurd hclose (by decide)

/-- A block rendered with the flag raised: it carries the exclusive
listener line and lowers the flag. -/
theorem gsb_true_mem (n : String) (p : Project) (env : String)
    (lines : List String) (b' : Bool)
    (h : generateServerBlock n p env true = (some lines, b')) :
    reuseportLine ∈ lines ∧ b' = false := by
  obtain ⟨hb, sn, pd, bsec, fsec, hl, hbs, hfs⟩ := gsb_some_shape n p env true lines b' h
  simp only [reduceIte] at hb hl
  subst hl
  exact ⟨List.mem_append_left _ (reuseportLine_mem_header _ _ _ _ _), hb⟩

/-- The flag is never raised again once lowered. -/
theorem gsb_flag_false (n : String) (p : Project) (env : String) :
    (generateServerBlock n p env false).2 = false := by
  unfold generateServerBlock
  split
  · rfl
  · split
    · rfl
    · rfl

/-- A failed render (empty or missing domain list) leaves the flag alone. -/
theorem gsb_crash_flag (n : String) (p : Project) (env : String) (b : Bool)
    (h : (generateServerBlock n p env b).1 = none) :
    (generateServerBlock n p env b).2 = b := by
  unfold generateServerBlock at h ⊢
  split at h
  · rfl
  · split at h
    · rfl
    · exact absurd h (by simp)

theorem envPart_eq (n : String) (p : Project) (env : String) (doms : Domains) (b : Bool)
    (pr : List String × List String) (b' : Bool)
    (h : envPart n p env doms b = (some pr, b')) :
    generateServerBlock n p env b = (some pr.2, b') ∧ pr.1 = redirectLines doms ++ pr.2 := by
  unfold envPart at h
  split at h
  · exact absurd h (by simp)
  · rename_i blockLines b₂ heq
    simp only [Prod.mk.injEq, Option.some.injEq] at h
    obtain ⟨hpr, hb⟩ := h
    subst hpr hb
    exact ⟨heq, rfl⟩

theorem envPart_flag_false (n : String) (p : Project) (env : String) (doms : Domains) :
    (envPart n p env doms false).2 = false := by
  unfold envPart
  split <;> rename_i heq <;>
    simpa [heq] using gsb_flag_false n p env

theorem envPart_false_mem (n : String) (p : Project) (env : String) (doms : Domains)
    (pr : List String × List String) (b' : Bool)
    (h : envPart n p env doms false = (some pr, b')) :
    plainQuicLine ∈ pr.2 ∧ reuseportLine ∉ pr.2 ∧ b' = false := by
  obtain ⟨hg, _⟩ := envPart_eq n p env doms false pr b' h
  exact gsb_false_mem n p env pr.2 b' hg

theorem envPart_true_mem (n : String) (p : Project) (env : String) (doms : Domains)
    (pr : List String × List String) (b' : Bool)
    (h : envPart n p env doms true = (some pr, b')) :
    reuseportLine ∈ pr.2 ∧ b' = false := by
  obtain ⟨hg, _⟩ := envPart_eq n p env doms true pr b' h
  exact gsb_true_mem n p env pr.2 b' hg

theorem gpc_flag_false (n : String) (p : Project) :
    (generateProjectConfig n p false).2 = false := by
  unfold generateProjectConfig
  cases hp : p.domains.production with
  | some prodDomains =>
    rcases he : envPart n p "production" prodDomains false with ⟨o, b'⟩
    have hb' : b' = false := by
      have := envPart_flag_false n p "production" prodDomains
      rw [he] at this; exact this
    subst hb'
    cases o with
    | none => simp [he]
    | some pr =>
      cases hs : p.domains.staging with
      | none => simp [he, hs]
      | some st =>
        rcases he2 : envPart n p "staging" st.domains false with ⟨o2, b''⟩
        have hb'' : b'' = false := by
          have := envPart_flag_false n p "staging" st.domains
          rw [he2] at this; exact this
        subst hb''
        cases o2 <;> simp [he, hs, he2]
  | none =>
    cases hs : p.domains.staging with
    | none => simp [hs]
    | some st =>
      rcases he : envPart n p "staging" st.domains false with ⟨o, b'⟩
      have hb' : b' = false := by
        have := envPart_flag_false n p "staging" st.domains
        rw [he] at this; exact this
      subst hb'
      cases o <;> simp [hs, he]

/-- Blocks of a project rendered with the flag already lowered: every block
uses the plain QUIC listener and the flag stays lowered. -/
theorem gpc_blocks_false (n : String) (p : Project)
    (cb : List String × List (List String)) (b' : Bool)
    (h : generateProjectConfig n p false = (some cb, b')) :
    (∀ blk ∈ cb.2, plainQuicLine ∈ blk ∧ reuseportLine ∉ blk) ∧ b' = false := by
  unfold generateProjectConfig at h
  cases hp : p.domains.production with
  | some prodDomains =>
    simp only [hp] at h
    rcases he1 : envPart n p "production" prodDomains false with ⟨o1, b₁⟩
    simp only [he1] at h
    cases o1 with
    | none => exact absurd h (by simp)
    | some pr =>
      obtain ⟨hm1, hn1, hb1⟩ := envPart_false_mem n p "production" prodDomains pr b₁ he1
      subst hb1
      cases hs : p.domains.staging with
      | none =>
        simp only [hs, Prod.mk.injEq, Option.some.injEq] at h
        obtain ⟨hcb, hb⟩ := h
        subst hcb
        refine ⟨?_, hb.symm⟩
        intro blk hblk
        simp only [List.mem_singleton] at hblk
        subst hblk
        exact ⟨hm1, hn1⟩
      | some st =>
        simp only [hs] at h
        rcases he2 : envPart n p "staging" st.domains false with ⟨o2, b₂⟩
        simp only [he2] at h
        cases o2 with
        | none => exact absurd h (by simp)
        | some stp =>
          obtain ⟨hm2, hn2, hb2⟩ := envPart_false_mem n p "staging" st.domains stp b₂ he2
          subst hb2
          simp only [Prod.mk.injEq, Option.some.injEq] at h
          obtain ⟨hcb, hb⟩ := h
          subst hcb
          refine ⟨?_, hb.symm⟩
          intro blk hblk
          simp only [List.mem_cons, List.not_mem_nil, or_false] at hblk
          rcases hblk with rfl | rfl
          · exact ⟨hm1, hn1⟩
          · exact ⟨hm2, hn2⟩
  | none =>
    simp only [hp] at h
    cases hs : p.domains.staging with
    | none =>
      simp only [hs, Prod.mk.injEq, Option.some.injEq] at h
      obtain ⟨hcb, hb⟩ := h
      subst hcb
      exact ⟨by intro blk hblk; exact absurd hblk (List.not_mem_nil _), hb.symm⟩
    | some st =>
      simp only [hs] at h
      rcases he1 : envPart n p "staging" st.domains false with ⟨o1, b₁⟩
      simp only [he1] at h
      cases o1 with
      | none => exact absurd h (by simp)
      | some stp =>
        obtain ⟨hm1, hn1, hb1⟩ := envPart_false_mem n p "staging" st.domains stp b₁ he1
        subst hb1
        simp only [Prod.mk.injEq, Option.some.injEq] at h
        obtain ⟨hcb, hb⟩ := h
        subst hcb
        refine ⟨?_, hb.symm⟩
        intro blk hblk
        simp only [List.mem_singleton] at hblk
        subst hblk
        exact ⟨hm1, hn1⟩

/-- Blocks of a project rendered with the flag raised: either no block is
rendered and the flag stays raised, or the first block carries the
exclusive listener, the later ones the plain listener, and the flag is
lowered. -/
theorem gpc_blocks_true (n : String) (p : Project)
    (cb : List String × List (List String)) (b' : Bool)
    (h : generateProjectConfig n p true = (some cb, b')) :
    (cb.2 = [] ∧ b' = true) ∨
      (∃ bh bt, cb.2 = bh :: bt ∧ reuseportLine ∈ bh ∧
        (∀ blk ∈ bt, plainQuicLine ∈ blk ∧ reuseportLine ∉ blk) ∧ b' = false) := by
  unfold generateProjectConfig at h
  cases hp : p.domains.production with
  | some prodDomains =>
    simp only [hp] at h
    rcases he1 : envPart n p "production" prodDomains true with ⟨o1, b₁⟩
    simp only [he1] at h
    cases o1 with
    | none => exact absurd h (by simp)
    | some pr =>
      obtain ⟨hm1, hb1⟩ := envPart_true_mem n p "production" prodDomains pr b₁ he1
      subst hb1
      cases hs : p.domains.staging with
      | none =>
        simp only [hs, Prod.mk.injEq, Option.some.injEq] at h
        obtain ⟨hcb, hb⟩ := h
        subst hcb
        exact Or.inr ⟨pr.2, [], rfl, hm1,
          by intro blk hblk; exact absurd hblk (List.not_mem_nil _), hb.symm⟩
      | some st =>
        simp only [hs] at h
        rcases he2 : envPart n p "staging" st.domains false with ⟨o2, b₂⟩
        simp only [he2] at h
        cases o2 with
        | none => exact absurd h (by simp)
        | some stp =>
          obtain ⟨hm2, hn2, hb2⟩ := envPart_false_mem n p "staging" st.domains stp b₂ he2
          subst hb2
          simp only [Prod.mk.injEq, Option.some.injEq] at h
          obtain ⟨hcb, hb⟩ := h
          subst hcb
          refine Or.inr ⟨pr.2, [stp.2], rfl, hm1, ?_, hb.symm⟩
          intro blk hblk
          simp only [List.mem_singleton] at hblk
          subst hblk
          exact ⟨hm2, hn2⟩
  | none =>
    simp only [hp] at h
    cases hs : p.domains.staging with
    | none =>
      simp only [hs, Prod.mk.injEq, Option.some.injEq] at h
      obtain ⟨hcb, hb⟩ := h
      subst hcb
      exact Or.inl ⟨rfl, hb.symm⟩
    | some st =>
      simp only [hs] at h
      rcases he1 : envPart n p "staging" st.domains true with ⟨o1, b₁⟩
      simp only [he1] at h
      cases o1 with
      | none => exact absurd h (by simp)
      | some stp =>
        obtain ⟨hm1, hb1⟩ := envPart_true_mem n p "staging" st.domains stp b₁ he1
        subst hb1
        simp only [Prod.mk.injEq, Option.some.injEq] at h
        obtain ⟨hcb, hb⟩ := h
        subst hcb
        exact Or.inr ⟨stp.2, [], rfl, hm1,
          by intro blk hblk; exact absurd hblk (List.not_mem_nil _), hb.symm⟩

/-- Once lowered, the shared flag is never raised again by the loop. -/
theorem runLoop_flag_false (dry : Bool) (ps : List (String × Project)) (d : Dir) :
    (runLoop dry ps d false).flagOut = false := by
  induction ps generalizing d with
  | nil => rfl
  | cons np rest ih =>
    obtain ⟨n, p⟩ := np
    unfold runLoop
    rcases hg : generateProjectConfig n p false with ⟨o, b'⟩
    have hb' : b' = false := by
      have := gpc_flag_false n p
      rw [hg] at this; exact this
    subst hb'
    cases o with
    | none => simp
    | some cb =>
      cases hf : outputFileName n p with
      | none => simp [hf]
      | some fname =>
        by_cases hdry : dry = true
        · subst hdry; simp [hf, ih]
        · simp only [Bool.not_eq_true] at hdry
          subst hdry; simp [hf, ih]

/-- Every block rendered by the loop after the flag was lowered uses the
plain QUIC listener. -/
theorem runLoop_blocks_false (dry : Bool) (ps : List (String × Project)) (d : Dir) :
    ∀ blk ∈ (runLoop dry ps d false).blocks,
      plainQuicLine ∈ blk ∧ reuseportLine ∉ blk := by
  induction ps generalizing d with
  | nil => intro blk hblk; exact absurd hblk (List.not_mem_nil _)
  | cons np rest ih =>
    obtain ⟨n, p⟩ := np
    unfold runLoop
    rcases hg : generateProjectConfig n p false with ⟨o, b'⟩
    have hb' : b' = false := by
      have := gpc_flag_false n p
      rw [hg] at this; exact this
    subst hb'
    cases o with
    | none => intro blk hblk; exact absurd hblk (List.not_mem_nil _)
    | some cb =>
      have hcb := gpc_blocks_false n p cb false hg
      cases hf : outputFileName n p with
      | none => intro blk hblk; exact absurd hblk (List.not_mem_nil _)
      | some fname =>
        intro blk hblk
        by_cases hdry : dry = true
        · subst hdry
          simp only [reduceIte, List.mem_append] at hblk
          rcases hblk with hblk | hblk
          · exact hcb.1 blk hblk
          · exact ih d blk hblk
        · simp only [Bool.not_eq_true] at hdry
          subst hdry
          simp only [Bool.false_eq_true, reduceIte, List.mem_append] at hblk
          rcases hblk with hblk | hblk
          · exact hcb.1 blk hblk
          · exact ih (fsWrite fname cb.1 d) blk hblk

/-- Blocks rendered by the loop from a raised flag: if any block is rendered
at all, the first one carries the exclusive listener and every later one the
plain listener. -/
theorem runLoop_blocks_true (dry : Bool) (ps : List (String × Project)) (d : Dir) :
    (runLoop dry ps d true).blocks = [] ∨
      ∃ bh bt, (runLoop dry ps d true).blocks = bh :: bt ∧ reuseportLine ∈ bh ∧
        ∀ blk ∈ bt, plainQuicLine ∈ blk ∧ reuseportLine ∉ blk := by
  induction ps generalizing d with
  | nil => exact Or.inl rfl
  | cons np rest ih =>
    obtain ⟨n, p⟩ := np
    unfold runLoop
    rcases hg : generateProjectConfig n p true with ⟨o, b'⟩
    cases o with
    | none => exact Or.inl rfl
    | some cb =>
      rcases gpc_blocks_true n p cb b' hg with ⟨hnil, hb⟩ | ⟨bh, bt, hcons, hmem, htail, hb⟩
      · subst hb
        cases hf : outputFileName n p with
        | none => exact Or.inl rfl
        | some fname =>
          by_cases hdry : dry = true
          · subst hdry
            rcases ih d with hres | ⟨bh, bt, hres, hmem, htail⟩
            · exact Or.inl (by simp [hnil, hres])
            · exact Or.inr ⟨bh, bt, by simp [hnil, hres], hmem, htail⟩
          · simp only [Bool.not_eq_true] at hdry
            subst hdry
            rcases ih (fsWrite fname cb.1 d) with hres | ⟨bh, bt, hres, hmem, htail⟩
            · exact Or.inl (by simp [hnil, hres])
            · exact Or.inr ⟨bh, bt, by simp [hnil, hres], hmem, htail⟩
      · subst hb
        cases hf : outputFileName n p with
        | none => exact Or.inl rfl
        | some fname =>
          by_cases hdry : dry = true
          · subst hdry
            refine Or.inr ⟨bh, bt ++ (runLoop true rest d false).blocks, by simp [hcons], hmem, ?_⟩
            intro blk hblk
            rcases List.mem_append.mp hblk with hblk | hblk
            · exact htail blk hblk
            · exact runLoop_blocks_false true rest d blk hblk
          · simp only [Bool.not_eq_true] at hdry
            subst hdry
            refine Or.inr ⟨bh, bt ++ (runLoop false rest (fsWrite fname cb.1 d) false).blocks,
              by simp [hcons], hmem, ?_⟩
            intro blk hblk
            rcases List.mem_append.mp hblk with hblk | hblk
            · exact htail blk hblk
            · exact runLoop_blocks_false false rest (fsWrite fname cb.1 d) blk hblk

/-- `generate_all` without `--project` always runs the loop over the whole
registry from a fresh flag; all record components except the exit data come
straight from the loop. -/
theorem runAll_none_parts (reg : List (String × Project)) (dry : Bool) (d : Dir) :
    (runAll reg dry none d).blocks = (runLoop dry reg d true).blocks ∧
    (runAll reg dry none d).dir = (runLoop dry reg d true).dir ∧
    (runAll reg dry none d).previews = (runLoop dry reg d true).previews ∧
    (runAll reg dry none d).crashed = (runLoop dry reg d true).crashed := by
  unfold runAll
  dsimp only
  split
  · simp [*]
  · split
    · simp_all
    · simp_all

/-- Claim C1: for every run of generation over a registry that renders at
least one HTTPS server block, exactly one generated HTTPS block across all
projects and files carries the exclusive listener option (the `reuseport`
marker line): it is the first HTTPS block rendered in registry iteration
order, every other HTTPS block uses the same QUIC listener directive without
that option, and the shared first-block boolean is flipped on the first
block and never reset mid-run. -/
theorem c1_exclusive_reuseport (reg : List (String × Project)) (d : Dir)
    (b0 : List String) (rest : List (List String))
    (h : (runAll reg false none d).blocks = b0 :: rest) :
    reuseportLine ∈ b0 ∧
    (∀ blk ∈ rest, plainQuicLine ∈ blk ∧ reuseportLine ∉ blk) ∧
    (b0 :: rest).countP (fun blk => decide (reuseportLine ∈ blk)) = 1 ∧
    (∀ dry ps d₂, (runLoop dry ps d₂ false).flagOut = false) := by
  rw [(runAll_none_parts reg false d).1] at h
  rcases runLoop_blocks_true false reg d with hnil | ⟨bh, bt, hres, hmem, htail⟩
  · rw [hnil] at h; exact absurd h (by simp)
  · rw [hres] at h
    injection h with h1 h2
    subst h1 h2
    refine ⟨hmem, htail, ?_, fun dry ps d₂ => runLoop_flag_false dry ps d₂⟩
    rw [List.countP_cons]
    have hz : bt.countP (fun blk => decide (reuseportLine ∈ blk)) = 0 := by
      rw [List.countP_eq_zero]
      intro blk hblk
      simpa using (htail blk hblk).2
    simp [hz, hmem]

/-- Witness for C1: a concrete two-project run renders two HTTPS blocks, and
the theorem applies to it. -/
theorem c1_exclusive_reuseport_witness :
    ((runAll c1Reg false none []).blocks = c1Blocks.headD [] :: c1Blocks.tail) ∧
    (reuseportLine ∈ c1Blocks.headD [] ∧
      (∀ blk ∈ c1Blocks.tail, plainQuicLine ∈ blk ∧ reuseportLine ∉ blk) ∧
      (c1Blocks.headD [] :: c1Blocks.tail).countP
          (fun blk => decide (reuseportLine ∈ blk)) = 1 ∧
      (∀ dry ps d₂, (runLoop dry ps d₂ false).flagOut = false)) :=
  ⟨by rfl, c1_exclusive_reuseport c1Reg [] (c1Blocks.headD []) c1Blocks.tail (by rfl)⟩

theorem fsRead_fsWrite (name : String) (c : List String) (d : Dir) (m : String) :
    fsRead (fsWrite name c d) m = if name = m then some c else fsRead d m := by
  induction d with
  | nil => simp [fsWrite, fsRead]
  | cons f rest ih =>
    by_cases hf : f.1 = name
    · rw [fsWrite, if_pos hf]
      by_cases hm : name = m
      · simp [fsRead, hm]
      · have hfm : f.1 ≠ m := fun hc => hm (hf.symm.trans hc)
        simp [fsRead, hm, hfm]
    · rw [fsWrite, if_neg hf]
      by_cases hfm : f.1 = m
      · have hm : name ≠ m := fun hc => hf (hfm.trans hc.symm)
        simp [fsRead, hfm, hm]
      · simp [fsRead, hfm, ih]

theorem fsRead_applyWrites (ws : List (String × List String)) (d : Dir) (m : String) :
    fsRead (applyWrites ws d) m =
      match lastWrite ws m with
      | some r => some r
      | none => fsRead d m := by
  induction ws generalizing d with
  | nil => rfl
  | cons w ws ih =>
    show fsRead (applyWrites ws (fsWrite w.1 w.2 d)) m = _
    rw [ih]
    cases hlw : lastWrite ws m with
    | some r => simp [lastWrite, hlw]
    | none =>
      rw [fsRead_fsWrite]
      by_cases hm : w.1 = m
      · simp [lastWrite, hlw, hm]
      · simp [lastWrite, hlw, hm]

/-- The directory produced by a non-dry-run loop is the initial directory
with the run's writes applied in order. -/
theorem runLoop_dir (ps : List (String × Project)) (d : Dir) (b : Bool) :
    (runLoop false ps d b).dir = applyWrites (writesOf ps b) d := by
  induction ps generalizing d b with
  | nil => rfl
  | cons np rest ih =>
    obtain ⟨n, p⟩ := np
    unfold runLoop writesOf
    rcases hg : generateProjectConfig n p b with ⟨o, b'⟩
    cases o with
    | none => rfl
    | some cb =>
      cases hf : outputFileName n p with
      | none => rfl
      | some fname =>
        simp only [Bool.false_eq_true, reduceIte]
        exact ih (fsWrite fname cb.1 d) b'

/-- The directory after `generate_all` without `--project` and without
`--dry-run`. -/
theorem runAll_dir (reg : List (String × Project)) (d : Dir) :
    (runAll reg false none d).dir = applyWrites (writesOf reg true) d := by
  rw [(runAll_none_parts reg false d).2.1]
  exact runLoop_dir reg d true

/-- Claim C6: running full generation twice, each time from a fresh initial
render state, over the same unchanged registry input produces byte-identical
file content for every output file: reading any file name after the second
run gives exactly what the first run left there. -/
theorem c6_idempotent_rerun (reg : List (String × Project)) (d : Dir) (m : String) :
    fsRead (runAll reg false none (runAll reg false none d).dir).dir m =
      fsRead (runAll reg false none d).dir m := by
  rw [runAll_dir, runAll_dir, fsRead_applyWrites, fsRead_applyWrites]
  cases lastWrite (writesOf reg true) m <;> rfl

/-- A dry-run loop never touches the directory. -/
theorem runLoop_dry_dir (ps : List (String × Project)) (d : Dir) (b : Bool) :
    (runLoop true ps d b).dir = d := by
  induction ps generalizing d b with
  | nil => rfl
  | cons np rest ih =>
    obtain ⟨n, p⟩ := np
    unfold runLoop
    rcases hg : generateProjectConfig n p b with ⟨o, b'⟩
    cases o with
    | none => rfl
    | some cb =>
      cases hf : outputFileName n p with
      | none => rfl
      | some fname =>
        simp only [reduceIte]
        exact ih d b'

/-- Splitting on the literal backslash-`n` separator leaves a string without
backslashes in one piece. -/
theorem splitBNAux_no_bs (cs : List Char) (acc : List Char)
    (h : ∀ c ∈ cs, c ≠ '\\') : splitBNAux acc cs = [acc.reverse ++ cs] := by
  induction cs generalizing acc with
  | nil => simp [splitBNAux]
  | cons c rest ih =>
    have hc : c ≠ '\\' := h c (List.mem_cons_self _ _)
    rw [splitBNAux.eq_def]
    split
    · rename_i heq
      exact absurd heq (by simp)
    · rename_i heq
      injection heq with h1 _
      exact absurd h1 hc
    · rename_i heq
      injection heq with h1 h2
      subst h1
      subst h2
      exact (ih (c :: acc) (fun x hx => h x (List.mem_cons_of_mem _ hx))).trans (by simp)

/-- A rendered text whose lines contain no backslashes contains none. -/
theorem joinLinesChars_no_bs (lines : List String)
    (h : lines.all (fun l => l.data.all (fun c => !(c == '\\'))) = true) :
    ∀ c ∈ joinLinesChars lines, c ≠ '\\' := by
  induction lines with
  | nil => intro c hc; exact absurd hc (List.not_mem_nil _)
  | cons l rest ih =>
    simp only [List.all_cons, Bool.and_eq_true] at h
    intro c hc
    rcases List.mem_append.mp hc with hc | hc
    · have := List.all_eq_true.mp h.1 c hc
      simpa using this
    · rcases hc with _ | ⟨_, hc⟩
      · decide
      · exact ih h.2 c hc

/-- On backslash-free content the preview is the whole text in one chunk. -/
theorem previewLines_no_bs (cfg : List String)
    (h : cfg.all (fun l => l.data.all (fun c => !(c == '\\'))) = true) :
    previewLines cfg = [textOfLines cfg] := by
  unfold previewLines splitBN textOfLines
  rw [splitBNAux_no_bs _ _ (joinLinesChars_no_bs cfg h)]
  simp

set_option maxRecDepth 8000 in
/-- Claim C7: in dry-run mode no file in the output directory is created or
modified — but the printed preview is NOT the first ten lines of the
generated text: the source splits on the literal two-character sequence
backslash-`n` (`config.split("\\n")`), which never occurs in a rendered
config, so the preview is the whole config as a single chunk.  The second
conjunct evaluates the embedded code on a concrete project whose config has
more than ten lines and shows the preview is one chunk holding the entire
text. -/
theorem c7_dry_run_behavior :
    (∀ reg s d, (runAll reg true s d).dir = d) ∧
    ((runAll [("tiny", tinyProject)] true none []).previews =
        [[textOfLines tinyConfigLines]] ∧
      10 < tinyConfigLines.length) := by
  constructor
  · intro reg s d
    cases s with
    | none =>
      rw [(runAll_none_parts reg true d).2.1]
      exact runLoop_dry_dir reg d true
    | some nm =>
      unfold runAll
      dsimp only
      cases hf : reg.find? (fun np => np.1 == nm) with
      | none => simp [hf]
      | some np =>
        simp only [hf]
        split
        · exact runLoop_dry_dir [np] d true
        · split
          · exact runLoop_dry_dir [np] d true
          · exact runLoop_dry_dir [np] d true
  · have hall : tinyConfigLines.all (fun l => l.data.all (fun c => !(c == '\\'))) = true := by
      decide
    have h1 : (runAll [("tiny", tinyProject)] true none []).previews =
        [previewLines tinyConfigLines] := rfl
    rw [h1, previewLines_no_bs tinyConfigLines hall]
    exact ⟨rfl, by decide⟩

/-- The validator verdict is `false` exactly when the reuseport-line count
across `.conf` files differs from one, or some `.conf` file has no line with
the QUIC marker; the two checks are independent disjuncts. -/
theorem validate_false_iff (d : Dir) :
    validateGeneratedConfigs d = false ↔
      (countReuseportLines d ≠ 1 ∨ ∃ f ∈ confFiles d, fileHasQuic f.2 = false) := by
  unfold validateGeneratedConfigs
  rw [Bool.and_eq_false_iff]
  constructor
  · rintro (h | h)
    · exact Or.inl (by simpa using h)
    · refine Or.inr ?_
      rw [List.isEmpty_eq_false] at h
      rcases hl : List.filter (fun f => !fileHasQuic f.2) (confFiles d) with _ | ⟨f, rest⟩
      · exact absurd hl h
      · have hf : f ∈ List.filter (fun f => !fileHasQuic f.2) (confFiles d) := by
          rw [hl]; exact List.mem_cons_self _ _
        have := List.mem_filter.mp hf
        exact ⟨f, this.1, by simpa using this.2⟩
  · rintro (h | ⟨f, hf, hq⟩)
    · exact Or.inl (by simpa using h)
    · refine Or.inr ?_
      rw [List.isEmpty_eq_false]
      intro hnil
      have hmem : f ∈ List.filter (fun f => !fileHasQuic f.2) (confFiles d) :=
        List.mem_filter.mpr ⟨hf, by simp [hq]⟩
      rw [hnil] at hmem
      exact List.not_mem_nil _ hmem

/-- Claim C2: after a non-dry-run generation that completes, the validator
runs, and the process exits non-zero iff the line count of the exclusive
marker across the `.conf` files of the output directory differs from one, or
some `.conf` file there has no line containing the plain QUIC marker; both
checks contribute independently, and the written files stay in place (the
directory is exactly the initial one with the run's writes applied,
regardless of the verdict). -/
theorem c2_validator_iff (reg : List (String × Project)) (d : Dir)
    (h : (runAll reg false none d).crashed = false) :
    (runAll reg false none d).ranValidation = true ∧
    ((runAll reg false none d).exitCode ≠ 0 ↔
      (countReuseportLines (runAll reg false none d).dir ≠ 1 ∨
        ∃ f ∈ confFiles (runAll reg false none d).dir, fileHasQuic f.2 = false)) ∧
    (runAll reg false none d).dir = applyWrites (writesOf reg true) d := by
  have hcr : (runLoop false reg d true).crashed = false := by
    rw [← (runAll_none_parts reg false d).2.2.2]; exact h
  have hrec : runAll reg false none d =
      ⟨(runLoop false reg d true).dir, (runLoop false reg d true).blocks,
        (runLoop false reg d true).previews, false, true,
        if validateGeneratedConfigs (runLoop false reg d true).dir then 0 else 1⟩ := by
    unfold runAll
    dsimp only
    simp only [hcr, Bool.false_eq_true, reduceIte]
  rw [hrec]
  dsimp only
  refine ⟨rfl, ?_, runLoop_dir reg d true⟩
  cases hv : validateGeneratedConfigs (runLoop false reg d true).dir with
  | true =>
    have hnot : ¬(countReuseportLines (runLoop false reg d true).dir ≠ 1 ∨
        ∃ f ∈ confFiles (runLoop false reg d true).dir, fileHasQuic f.2 = false) := by
      intro hr
      have := (validate_false_iff (runLoop false reg d true).dir).mpr hr
      rw [hv] at this
      cases this
    rw [if_pos rfl]
    exact ⟨fun h0 => absurd rfl h0, fun hr => absurd hr hnot⟩
  | false =>
    rw [if_neg (by simp)]
    exact iff_of_true (by decide) ((validate_false_iff _).mp hv)

/-- Witness for C2: the theorem applied to a concrete crash-free run. -/
theorem c2_validator_iff_witness :
    (runAll [("blog", demoProject2)] false none []).crashed = false ∧
    ((runAll [("blog", demoProject2)] false none []).ranValidation = true ∧
      ((runAll [("blog", demoProject2)] false none []).exitCode ≠ 0 ↔
        (countReuseportLines (runAll [("blog", demoProject2)] false none []).dir ≠ 1 ∨
          ∃ f ∈ confFiles (runAll [("blog", demoProject2)] false none []).dir,
            fileHasQuic f.2 = false)) ∧
      (runAll [("blog", demoProject2)] false none []).dir =
        applyWrites (writesOf [("blog", demoProject2)] true) []) :=
  ⟨by rfl, c2_validator_iff [("blog", demoProject2)] [] (by rfl)⟩

/-- Counterexample to claim C8: a non-dry-run generation restricted to a
single named project does run the post-generation validator. -/
theorem c8_single_project_validates :
    (runAll [("blog", demoProject2)] false (some "blog") []).ranValidation = true := by rfl

/-- Claim C8 (amended): the validator never runs in dry-run mode; in
non-dry-run mode it runs after every generation that completes without
crashing — whether full or restricted to a single named project — and is
skipped only when the requested project name is unknown. -/
theorem c8_validator_runs :
    (∀ reg s d, (runAll reg true s d).ranValidation = false) ∧
    (∀ (reg : List (String × Project)) (s : Option String) (d : Dir),
      (runAll reg false s d).ranValidation =
        (!(runAll reg false s d).crashed &&
          match s with
          | none => true
          | some nm => reg.any (fun np => np.1 == nm))) := by
  constructor
  · intro reg s d
    cases s with
    | none =>
      unfold runAll
      dsimp only
      split <;> rfl
    | some nm =>
      unfold runAll
      dsimp only
      cases hf : reg.find? (fun np => np.1 == nm) with
      | none => simp [hf]
      | some np =>
        simp only [hf]
        split <;> rfl
  · intro reg s d
    cases s with
    | none =>
      unfold runAll
      dsimp only
      cases hcr : (runLoop false reg d true).crashed with
      | true => simp only [hcr, reduceIte]; rfl
      | false => simp only [hcr, Bool.false_eq_true, reduceIte]; rfl
    | some nm =>
      unfold runAll
      dsimp only
      cases hf : reg.find? (fun np => np.1 == nm) with
      | none =>
        have hany : reg.any (fun np => np.1 == nm) = false := by
          rw [List.any_eq_false]
          intro x hx
          exact List.find?_eq_none.mp hf x hx
        simp [hf, hany]
      | some np =>
        have hp := @List.find?_some (String × Project) (fun np => np.1 == nm) np reg hf
        have hany : reg.any (fun np => np.1 == nm) = true :=
          List.any_eq_true.mpr ⟨np, List.mem_of_find?_eq_some hf, hp⟩
        simp only [hf, hany]
        cases hcr : (runLoop false [np] d true).crashed with
        | true => simp only [hcr, reduceIte]; rfl
        | false => simp only [hcr, Bool.false_eq_true, reduceIte]; rfl

/-- Counterexample to claim C3: for a project whose key differs from its
primary domain, the log file names come from the project key, not the
primary domain — no log line mentions the domain-based name the claim
requires. -/
theorem c3_log_name_counterexample :
    ("    access_log /var/log/nginx/myproj-production.access.log detailed;" ∈ c3BlockLines) ∧
    ("    ssl_certificate /etc/letsencrypt/live/example.com/fullchain.pem;" ∈ c3BlockLines) ∧
    ("    access_log /var/log/nginx/example.com-production.access.log detailed;" ∉ c3BlockLines) ∧
    ("    error_log /var/log/nginx/example.com-production.error.log warn;" ∉ c3BlockLines) := by
  decide

/-- Claim C3 (amended): for every rendered environment the first entry of
its domain list is the primary domain, and it is used for the SSL
certificate paths; the access/error log file names are derived from the
project key and the environment name instead. -/
theorem c3_primary_domain_usage (n : String) (p : Project) (env : String) (b : Bool)
    (lines : List String) (b' : Bool) (dom : Domains) (pd : String)
    (h : generateServerBlock n p env b = (some lines, b'))
    (hdom : domainsFor p env = some dom) (hpd : dom.primary? = some pd) :
    ("    ssl_certificate /etc/letsencrypt/live/" ++ (pd ++ "/fullchain.pem;")) ∈ lines ∧
    ("    ssl_certificate_key /etc/letsencrypt/live/" ++ (pd ++ "/privkey.pem;")) ∈ lines ∧
    ("    access_log /var/log/nginx/" ++ (n ++ ("-" ++ (env ++ ".access.log detailed;")))) ∈ lines ∧
    ("    error_log /var/log/nginx/" ++ (n ++ ("-" ++ (env ++ ".error.log warn;")))) ∈ lines ∧
    (∀ dd rest, dom = Domains.list (dd :: rest) → pd = dd) := by
  unfold generateServerBlock at h
  simp only [hdom, hpd] at h
  simp only [Prod.mk.injEq, Option.some.injEq] at h
  obtain ⟨hl, hb⟩ := h
  subst hl
  refine ⟨List.mem_append_left _ (by simp [headerLines]),
    List.mem_append_left _ (by simp [headerLines]),
    List.mem_append_left _ (by simp [headerLines]),
    List.mem_append_left _ (by simp [headerLines]), ?_⟩
  intro dd rest hdd
  subst hdd
  simp only [Domains.primary?, List.head?] at hpd
  exact (Option.some.inj hpd).symm

/-- Witness for C3: the amended theorem applied to a concrete project. -/
theorem c3_primary_domain_usage_witness :
    (generateServerBlock "myproj" c3Project "production" true = (some c3BlockLines, false) ∧
      domainsFor c3Project "production" = some (Domains.list ["example.com"]) ∧
      (Domains.list ["example.com"]).primary? = some "example.com") ∧
    "    ssl_certificate /etc/letsencrypt/live/example.com/fullchain.pem;" ∈ c3BlockLines :=
  ⟨⟨by rfl, by rfl, by rfl⟩,
    (c3_primary_domain_usage "myproj" c3Project "production" true c3BlockLines false
      (Domains.list ["example.com"]) "example.com" (by rfl) (by rfl) (by rfl)).1⟩

/-- Counterexample to claim C4: `str.replace("www.", "")` removes every
occurrence of `www.`, not only a leading prefix — a primary domain with an
interior `www.` yields a file name the claim's leading-prefix rule would not
produce. -/
theorem c4_filename_counterexample :
    ((runAll [("api-site", wwwProject)] false none []).dir.map Prod.fst =
      ["api.example.com.conf"]) ∧
    ("api.www.example.com.conf" ∉
      (runAll [("api-site", wwwProject)] false none []).dir.map Prod.fst) := by
  constructor
  · rfl
  · decide

/-- Claim C4 (amended): the output file name is the production primary
domain with every occurrence of `www.` removed (in particular a leading
`www.` prefix is stripped), with the `.conf` extension appended; a project
without production domains falls back to the project key. -/
theorem c4_output_filename (n : String) (p : Project) :
    (∀ pd, p.domains.production = some (Domains.single pd) →
      (runAll [(n, p)] false none []).crashed = false →
      (runAll [(n, p)] false none []).dir.map Prod.fst = [stripWwwStr pd ++ ".conf"]) ∧
    (∀ pd rest, p.domains.production = some (Domains.list (pd :: rest)) →
      (runAll [(n, p)] false none []).crashed = false →
      (runAll [(n, p)] false none []).dir.map Prod.fst = [stripWwwStr pd ++ ".conf"]) ∧
    (p.domains.production = none →
      (runAll [(n, p)] false none []).crashed = false →
      (runAll [(n, p)] false none []).dir.map Prod.fst = [n ++ ".conf"]) := by
  have main : ∀ fname, outputFileName n p = some fname →
      (runAll [(n, p)] false none []).crashed = false →
      (runAll [(n, p)] false none []).dir.map Prod.fst = [fname] := by
    intro fname hf hc
    rw [(runAll_none_parts [(n, p)] false []).2.1]
    have hcr : (runLoop false [(n, p)] [] true).crashed = false := by
      rw [← (runAll_none_parts [(n, p)] false []).2.2.2]; exact hc
    rcases hg : generateProjectConfig n p true with ⟨o, b'⟩
    cases o with
    | none =>
      have hcontra : (runLoop false [(n, p)] [] true).crashed = true := by
        unfold runLoop
        simp only [hg]
      rw [hcontra] at hcr
      cases hcr
    | some cb =>
      unfold runLoop
      simp only [hg, hf, Bool.false_eq_true, reduceIte]
      rfl
  refine ⟨?_, ?_, ?_⟩
  · intro pd hprod hc
    refine main _ ?_ hc
    unfold outputFileName
    simp [hprod, Domains.primary?]
  · intro pd rest hprod hc
    refine main _ ?_ hc
    unfold outputFileName
    simp [hprod, Domains.primary?]
  · intro hprod hc
    refine main _ ?_ hc
    unfold outputFileName
    simp [hprod]

/-- Witness for C4: the amended theorem applied to a concrete project with a
production list and to a concrete project without production domains. -/
theorem c4_output_filename_witness :
    ((demoProject2.domains.production = some (Domains.list ("blog.example.org" :: [])) ∧
      (runAll [("blog", demoProject2)] false none []).crashed = false) ∧
      (runAll [("blog", demoProject2)] false none []).dir.map Prod.fst =
        [stripWwwStr "blog.example.org" ++ ".conf"]) ∧
    ((stagingOnlyProject.domains.production = none ∧
      (runAll [("stage-only", stagingOnlyProject)] false none []).crashed = false) ∧
      (runAll [("stage-only", stagingOnlyProject)] false none []).dir.map Prod.fst =
        ["stage-only" ++ ".conf"]) :=
  ⟨⟨⟨by rfl, by rfl⟩,
    (c4_output_filename "blog" demoProject2).2.1 "blog.example.org" [] (by rfl) (by rfl)⟩,
   ⟨⟨by rfl, by rfl⟩,
    (c4_output_filename "stage-only" stagingOnlyProject).2.2 (by rfl) (by rfl)⟩⟩

/-- Counterexample to claim C5: a project with a recognized backend
container but an empty `api_locations` list emits no backend (API) section,
yet the frontend burst is still forced to 50 and the configured burst 10 is
ignored. -/
theorem c5_burst_counterexample :
    ("        limit_req zone=general burst=50 nodelay;" ∈ emptyApiBlockLines) ∧
    ("        limit_req zone=general burst=10 nodelay;" ∉ emptyApiBlockLines) ∧
    ("        limit_req zone=api burst=10 nodelay;" ∉ emptyApiBlockLines) := by
  decide

/-- Claim C5 (amended): in every rendered HTTPS block the API section's
burst is the configured burst defaulting to 20; the frontend section's burst
is 50 whenever a backend container is recognized — even when the API section
itself is not emitted — and only when no backend container is recognized
does the frontend use the configured burst, defaulting to 50. -/
theorem c5_burst_values (n : String) (p : Project) (env : String) (b : Bool)
    (lines : List String) (b' : Bool)
    (h : generateServerBlock n p env b = (some lines, b')) :
    (∀ fc, (classifyContainers env p.containers).2 = some fc →
      ("        limit_req zone=" ++ ((rateLimitOf p).zone.getD "general" ++
        (" burst=" ++ (toString (if (classifyContainers env p.containers).1.isSome then 50
            else (rateLimitOf p).burst.getD 50) ++ " nodelay;")))) ∈ lines) ∧
    (∀ bc a rest, (classifyContainers env p.containers).1 = some bc →
      (nginxOf p).api_locations.getD [] = a :: rest →
      ("        limit_req zone=api burst=" ++
        (toString ((rateLimitOf p).burst.getD 20) ++ " nodelay;")) ∈ lines) := by
  unfold generateServerBlock at h
  split at h
  · exact absurd h (by simp)
  · split at h
    · exact absurd h (by simp)
    · simp only [Prod.mk.injEq, Option.some.injEq] at h
      obtain ⟨hl, hb⟩ := h
      subst hl
      constructor
      · intro fc hfc
        refine List.mem_append_right _ (List.mem_append_right _ (List.mem_append_left _ ?_))
        simp only [hfc]
        simp [frontendRoutesLines]
      · intro bc a rest hbc hapi
        refine List.mem_append_right _ (List.mem_append_left _ ?_)
        simp only [hbc, hapi]
        simp [backendRoutesLines]

/-- Witness for C5: the amended theorem applied to a concrete project whose
block has both sections; the frontend burst is 50. -/
theorem c5_burst_values_witness :
    generateServerBlock "filter-ical" demoProject "production" true =
      (some demoProdBlockLines, false) ∧
    "        limit_req zone=general burst=50 nodelay;" ∈ demoProdBlockLines :=
  ⟨by rfl,
    (c5_burst_values "filter-ical" demoProject "production" true demoProdBlockLines false
      (by rfl)).1 ("filter-web", 3000) (by rfl)⟩

theorem lastMatch_none {α : Type} (p : α → Bool) (l : List α)
    (h : ∀ x ∈ l, p x = false) : lastMatch p l = none := by
  induction l with
  | nil => rfl
  | cons x rest ih =>
    unfold lastMatch
    rw [ih (fun y hy => h y (List.mem_cons_of_mem _ hy))]
    simp [h x (List.mem_cons_self _ _)]

theorem lastMatch_unique {α : Type} (p : α → Bool) (l : List α) (x : α)
    (hx : x ∈ l) (hpx : p x = true) (hu : ∀ y ∈ l, p y = true → y = x) :
    lastMatch p l = some x := by
  induction l with
  | nil => exact absurd hx (List.not_mem_nil _)
  | cons y rest ih =>
    unfold lastMatch
    by_cases hxr : x ∈ rest
    · rw [ih hxr (fun z hz hpz => hu z (List.mem_cons_of_mem _ hz) hpz)]
    · have hxy : y = x := by
        rcases List.mem_cons.mp hx with h | h
        · exact h.symm
        · exact absurd h hxr
      have hrest : lastMatch p rest = none := by
        apply lastMatch_none
        intro z hz
        by_cases hpz : p z = true
        · have hzx := hu z (List.mem_cons_of_mem _ hz) hpz
          rw [hzx] at hz
          exact absurd hz hxr
        · simpa using hpz
      rw [hrest, hxy]
      simp [hpx]

theorem classify_foldl_fst (env : String) (l : List (String × Container))
    (acc : Option (String × Nat) × Option (String × Nat)) :
    (l.foldl (classifyStep env) acc).1 =
      (lastMatch (fun kc => keyIsBackend kc.1) l).elim acc.1
        (fun kc => some (envContainerName env kc.2, kc.2.port)) := by
  induction l generalizing acc with
  | nil => rfl
  | cons kc rest ih =>
    rw [List.foldl_cons, ih]
    cases hB : lastMatch (fun kc => keyIsBackend kc.1) rest with
    | some r => simp [lastMatch, hB]
    | none =>
      by_cases hb : keyIsBackend kc.1 = true
      · simp [lastMatch, hB, hb, classifyStep]
      · simp only [Bool.not_eq_true] at hb
        by_cases hf : (hasSub "frontend" (lowerStr kc.1) || hasSub "web" (lowerStr kc.1)) = true
        · simp [lastMatch, hB, hb, hf, classifyStep]
        · simp only [Bool.not_eq_true] at hf
          simp [lastMatch, hB, hb, hf, classifyStep]

theorem classify_foldl_snd (env : String) (l : List (String × Container))
    (acc : Option (String × Nat) × Option (String × Nat)) :
    (l.foldl (classifyStep env) acc).2 =
      (lastMatch (fun kc => keyIsFrontendBranch kc.1) l).elim acc.2
        (fun kc => some (envContainerName env kc.2, kc.2.port)) := by
  induction l generalizing acc with
  | nil => rfl
  | cons kc rest ih =>
    rw [List.foldl_cons, ih]
    cases hF : lastMatch (fun kc => keyIsFrontendBranch kc.1) rest with
    | some r => simp [lastMatch, hF]
    | none =>
      by_cases hb : keyIsBackend kc.1 = true
      · have hkf : keyIsFrontendBranch kc.1 = false := by
          simp [keyIsFrontendBranch, hb]
        simp [lastMatch, hF, hb, hkf, classifyStep]
      · simp only [Bool.not_eq_true] at hb
        by_cases hf : (hasSub "frontend" (lowerStr kc.1) || hasSub "web" (lowerStr kc.1)) = true
        · have hkf : keyIsFrontendBranch kc.1 = true := by
            simp [keyIsFrontendBranch, hb, hf]
          simp [lastMatch, hF, hb, hf, hkf, classifyStep]
        · simp only [Bool.not_eq_true] at hf
          have hkf : keyIsFrontendBranch kc.1 = false := by
            simp [keyIsFrontendBranch, hb, hf]
          simp [lastMatch, hF, hb, hf, hkf, classifyStep]

/-- Counterexample to claim C9: a container mapping containing both
`api-backend` and `web-frontend` plus a later second backend-matching key
classifies that later key, not `api-backend`, as the backend container. -/
theorem c9_classification_counterexample :
    (classifyContainers "production"
        [("api-backend", ⟨"a", 1⟩), ("worker-backend", ⟨"b", 2⟩),
         ("web-frontend", ⟨"c", 3⟩)]).1 = some ("b", 2) ∧
    (classifyContainers "production"
        [("api-backend", ⟨"a", 1⟩), ("worker-backend", ⟨"b", 2⟩),
         ("web-frontend", ⟨"c", 3⟩)]).1 ≠ some ("a", 1) := by
  decide

/-- Claim C9 (amended): for every container mapping containing the keys
`api-backend` and `web-frontend` such that no other entry matches the
backend test or the frontend/web test, classification recognizes
`api-backend` as the backend container and `web-frontend` as the frontend
container, in every iteration order of the mapping. -/
theorem c9_container_classification (env : String) (l : List (String × Container))
    (c1 c2 : Container)
    (h1 : ("api-backend", c1) ∈ l) (h2 : ("web-frontend", c2) ∈ l)
    (hb : ∀ kc ∈ l, keyIsBackend kc.1 = true → kc = ("api-backend", c1))
    (hf : ∀ kc ∈ l, keyIsFrontendBranch kc.1 = true → kc = ("web-frontend", c2)) :
    classifyContainers env l =
      (some (envContainerName env c1, c1.port), some (envContainerName env c2, c2.port)) := by
  unfold classifyContainers
  refine Prod.ext ?_ ?_
  · rw [classify_foldl_fst,
      lastMatch_unique (fun kc => keyIsBackend kc.1) l ("api-backend", c1) h1
        (show keyIsBackend "api-backend" = true by decide) hb]
    rfl
  · rw [classify_foldl_snd,
      lastMatch_unique (fun kc => keyIsFrontendBranch kc.1) l ("web-frontend", c2) h2
        (show keyIsFrontendBranch "web-frontend" = true by decide) hf]
    rfl

/-- Witness for C9: the amended theorem applied to a concrete two-key
mapping in both iteration orders. -/
theorem c9_container_classification_witness :
    ((("api-backend", (⟨"a", 1⟩ : Container)) ∈
        [("api-backend", (⟨"a", 1⟩ : Container)), ("web-frontend", ⟨"c", 3⟩)] ∧
      ("web-frontend", (⟨"c", 3⟩ : Container)) ∈
        [("api-backend", (⟨"a", 1⟩ : Container)), ("web-frontend", ⟨"c", 3⟩)]) ∧
      classifyContainers "staging"
          [("api-backend", (⟨"a", 1⟩ : Container)), ("web-frontend", ⟨"c", 3⟩)] =
        (some ("a-staging", 1), some ("c-staging", 3))) ∧
    ((("api-backend", (⟨"a", 1⟩ : Container)) ∈
        [("web-frontend", (⟨"c", 3⟩ : Container)), ("api-backend", ⟨"a", 1⟩)] ∧
      ("web-frontend", (⟨"c", 3⟩ : Container)) ∈
        [("web-frontend", (⟨"c", 3⟩ : Container)), ("api-backend", ⟨"a", 1⟩)]) ∧
      classifyContainers "staging"
          [("web-frontend", (⟨"c", 3⟩ : Container)), ("api-backend", ⟨"a", 1⟩)] =
        (some ("a-staging", 1), some ("c-staging", 3))) :=
  ⟨⟨⟨by decide, by decide⟩,
    c9_container_classification "staging" _ ⟨"a", 1⟩ ⟨"c", 3⟩ (by decide) (by decide)
      (by decide) (by decide)⟩,
   ⟨⟨by decide, by decide⟩,
    c9_container_classification "staging" _ ⟨"a", 1⟩ ⟨"c", 3⟩ (by decide) (by decide)
      (by decide) (by decide)⟩⟩

theorem good_primary_prod (p : Project) (hg : goodDomains p) (dom : Domains)
    (hdom : p.domains.production = some dom) : ∃ pd, dom.primary? = some pd := by
  cases dom with
  | single d => exact ⟨d, rfl⟩
  | list ds =>
    cases ds with
    | nil => exact absurd rfl (hg.1 [] hdom)
    | cons a rest => exact ⟨a, rfl⟩

theorem good_primary_stag (p : Project) (hg : goodDomains p) (st : StagingDomains)
    (hst : p.domains.staging = some st) : ∃ pd, st.domains.primary? = some pd := by
  cases hdom : st.domains with
  | single d => exact ⟨d, by simp [hdom, Domains.primary?]⟩
  | list ds =>
    cases ds with
    | nil => exact absurd rfl (hg.2 st [] hst hdom)
    | cons a rest => exact ⟨a, by simp [hdom, Domains.primary?]⟩

theorem gsb_some_of (n : String) (p : Project) (env : String) (b : Bool) (dom : Domains)
    (pd : String) (hdom : domainsFor p env = some dom) (hpd : dom.primary? = some pd) :
    ∃ lines b2, generateServerBlock n p env b = (some lines, b2) := by
  unfold generateServerBlock
  simp only [hdom, hpd]
  exact ⟨_, _, rfl⟩

theorem gpc_some_of_good (n : String) (p : Project) (b : Bool) (hg : goodDomains p) :
    ∃ cb b', generateProjectConfig n p b = (some cb, b') := by
  unfold generateProjectConfig
  cases hp : p.domains.production with
  | some dom =>
    obtain ⟨pd, hpd⟩ := good_primary_prod p hg dom hp
    have hdomf : domainsFor p "production" = some dom := by simp [domainsFor, hp]
    obtain ⟨l1, b1, hgsb1⟩ := gsb_some_of n p "production" b dom pd hdomf hpd
    have he1 : envPart n p "production" dom b = (some (redirectLines dom ++ l1, l1), b1) := by
      unfold envPart; rw [hgsb1]
    simp only [he1]
    cases hs : p.domains.staging with
    | none => exact ⟨_, _, rfl⟩
    | some st =>
      obtain ⟨pd2, hpd2⟩ := good_primary_stag p hg st hs
      have hdomf2 : domainsFor p "staging" = some st.domains := by simp [domainsFor, hs]
      obtain ⟨l2, b2, hgsb2⟩ := gsb_some_of n p "staging" b1 st.domains pd2 hdomf2 hpd2
      have he2 : envPart n p "staging" st.domains b1 =
          (some (redirectLines st.domains ++ l2, l2), b2) := by
        unfold envPart; rw [hgsb2]
      simp only [he2]
      exact ⟨_, _, rfl⟩
  | none =>
    cases hs : p.domains.staging with
    | none => exact ⟨_, _, rfl⟩
    | some st =>
      obtain ⟨pd2, hpd2⟩ := good_primary_stag p hg st hs
      have hdomf2 : domainsFor p "staging" = some st.domains := by simp [domainsFor, hs]
      obtain ⟨l2, b2, hgsb2⟩ := gsb_some_of n p "staging" b st.domains pd2 hdomf2 hpd2
      have he2 : envPart n p "staging" st.domains b =
          (some (redirectLines st.domains ++ l2, l2), b2) := by
        unfold envPart; rw [hgsb2]
      simp only [he2]
      exact ⟨_, _, rfl⟩

theorem ofn_some_of_good (n : String) (p : Project) (hg : goodDomains p) :
    ∃ f, outputFileName n p = some f := by
  unfold outputFileName
  cases hp : p.domains.production with
  | some dom =>
    obtain ⟨pd, hpd⟩ := good_primary_prod p hg dom hp
    refine ⟨stripWwwStr pd ++ ".conf", ?_⟩
    show Option.map (fun pd => stripWwwStr pd ++ ".conf") dom.primary? = _
    rw [hpd]
    rfl
  | none => exact ⟨_, rfl⟩

theorem runLoop_nocrash (dry : Bool) (ps : List (String × Project)) (d : Dir) (b : Bool)
    (hg : ∀ np ∈ ps, goodDomains np.2) : (runLoop dry ps d b).crashed = false := by
  induction ps generalizing d b with
  | nil => rfl
  | cons np rest ih =>
    obtain ⟨n, p⟩ := np
    obtain ⟨cb, b', hgpc⟩ := gpc_some_of_good n p b (hg (n, p) (List.mem_cons_self _ _))
    obtain ⟨f, hf⟩ := ofn_some_of_good n p (hg (n, p) (List.mem_cons_self _ _))
    unfold runLoop
    simp only [hgpc, hf]
    have hrest := fun np hnp => hg np (List.mem_cons_of_mem _ hnp)
    by_cases hdry : dry = true
    · subst hdry
      simp only [reduceIte]
      exact ih d b' hrest
    · simp only [Bool.not_eq_true] at hdry
      subst hdry
      simp only [Bool.false_eq_true, reduceIte]
      exact ih (fsWrite f cb.1 d) b' hrest

/-- Claim C10: primary-domain selection (`domains[0]`) is total only for
non-empty domain lists.  An empty domain list makes the server-block
renderer fail (leaving the shared flag untouched), a project with an empty
production list aborts the whole run as soon as it is reached — before its
file is written and before any later project is processed — and when every
present domain list is non-empty the run never crashes. -/
theorem c10_empty_domain_safety :
    (∀ n p env b, domainsFor p env = some (Domains.list []) →
      generateServerBlock n p env b = (none, b)) ∧
    (∀ n p rest dry d b, p.domains.production = some (Domains.list []) →
      runLoop dry ((n, p) :: rest) d b = ⟨d, [], [], b, true⟩) ∧
    (∀ reg dry s d, (∀ np ∈ reg, goodDomains np.2) →
      (runAll reg dry s d).crashed = false) := by
  have hgsb : ∀ n p env b, domainsFor p env = some (Domains.list []) →
      generateServerBlock n p env b = (none, b) := by
    intro n p env b h
    unfold generateServerBlock
    simp [h, Domains.primary?]
  refine ⟨hgsb, ?_, ?_⟩
  · intro n p rest dry d b hprod
    have hgpc : generateProjectConfig n p b = (none, b) := by
      unfold generateProjectConfig envPart
      simp [hprod, hgsb n p "production" b (by simp [domainsFor, hprod])]
    unfold runLoop
    simp [hgpc]
  · intro reg dry s d hg
    cases s with
    | none =>
      rw [(runAll_none_parts reg dry d).2.2.2]
      exact runLoop_nocrash dry reg d true hg
    | some nm =>
      unfold runAll
      dsimp only
      cases hfind : reg.find? (fun np => np.1 == nm) with
      | none => simp [hfind]
      | some np =>
        have hmem := List.mem_of_find?_eq_some hfind
        have hcr : (runLoop dry [np] d true).crashed = false := by
          apply runLoop_nocrash
          intro x hx
          simp only [List.mem_singleton] at hx
          subst hx
          exact hg _ hmem
        simp only [hfind, hcr, Bool.false_eq_true, reduceIte]
        split <;> rfl

/-- Every project of the singleton demo registry has non-empty domain
lists. -/
theorem demoProject2_registry_good : ∀ np ∈ [("blog", demoProject2)], goodDomains np.2 := by
  intro np hnp
  simp only [List.mem_singleton] at hnp
  subst hnp
  constructor
  · intro ds hds hnil
    subst hnil
    exact absurd hds (by decide)
  · intro st ds hst
    simp [demoProject2] at hst

/-- Witness for C10: the three parts applied to concrete inputs. -/
theorem c10_empty_domain_safety_witness :
    (domainsFor emptyDomainsProject "production" = some (Domains.list []) ∧
      generateServerBlock "broken" emptyDomainsProject "production" true = (none, true)) ∧
    (emptyDomainsProject.domains.production = some (Domains.list []) ∧
      runLoop false [("broken", emptyDomainsProject)] [] true = ⟨[], [], [], true, true⟩) ∧
    ((∀ np ∈ [("blog", demoProject2)], goodDomains np.2) ∧
      (runAll [("blog", demoProject2)] false none []).crashed = false) :=
  ⟨⟨by rfl,
    c10_empty_domain_safety.1 "broken" emptyDomainsProject "production" true (by rfl)⟩,
   ⟨by rfl,
    c10_empty_domain_safety.2.1 "broken" emptyDomainsProject [] false [] true (by rfl)⟩,
   ⟨demoProject2_registry_good,
    c10_empty_domain_safety.2.2 [("blog", demoProject2)] false none []
      demoProject2_registry_good⟩⟩

end NginxGen
